import Mathlib

/-!
Verification of the VRPTW route-construction engine (`src/app.py`).

Shallow embedding of the core routing code of the repository
`AI-Powered_Multi_City_Route_Optimization_System`:

* `haversine_distance` — the deterministic geometric fallback estimator
  (real-valued, since the source computes with trigonometric functions);
* `run_vrptw` / `simulate_vehicle` — the greedy, time-advancing dispatch
  engine, embedded generically over a linear ordered field so the same
  definitions run both on `ℚ` (for executable witnesses) and on `ℝ`
  (for the haversine scenario).

Python's `datetime` time cursor is embedded as a number of minutes since an
arbitrary epoch: the source only ever adds `timedelta(minutes=...)` to it and
subtracts datetimes, so minutes-as-numbers is a faithful abstraction.
The inner `while` loop of `simulate_vehicle` is embedded with explicit fuel
(`innerLoop`); `innerLoop` returns `none` when the fuel is exhausted before
the loop exits, and termination is proved separately.
-/

namespace VRPTW

/-- One movement of one vehicle, mirroring the route dicts built in
`simulate_vehicle` (`'from'`/`'to'` become `origin`/`to`, the rest keep their
names).  `depart`/`arrive` are minutes since the epoch. -/
structure Leg (α : Type) where
  origin : String
  dest : String
  depart : α
  arrive : α
  deliver : α
  unload : α
  distance : α
  deriving Repr, DecidableEq

/-- A vehicle record as consumed by `run_vrptw`: `id`, `capacity`, and the
start instant (`startDate`+`startTime` parsed to minutes since the epoch). -/
structure Vehicle (α : Type) where
  id : Nat
  capacity : α
  start : α
  deriving Repr, DecidableEq

/-- A demand record as consumed by `run_vrptw`: the city name, the requested
quantity, and the (carried but unenforced) time-window strings. -/
structure DemandRec (α : Type) where
  city : String
  demand : α
  tw_start : String := ""
  tw_end : String := ""
  deriving Repr, DecidableEq

/-- The read-only routing context handed to `run_vrptw`: the ordered city
list, the distance matrix (km), and the depot (supply location) name. -/
structure Net (α : Type) where
  cities : List String
  matrix : List (List α)
  depot : String
  deriving Repr

variable {α : Type} [LinearOrderedField α]

/-- `SPEED_KMPH = 60`, the dispatch engine's assumed speed. -/
def SPEED_KMPH : α := 60

/-- `UNLOAD_MIN_PER_100KG = 30`. -/
def UNLOAD_MIN_PER_100KG : α := 30

/-- Matrix lookup `distance_matrix[i][j]` (out-of-range reads as 0; the
source only ever indexes with valid city indices). -/
def matEntry (net : Net α) (i j : Nat) : α :=
  (net.matrix.getD i []).getD j 0

/-- `dist_between(a, b) = distance_matrix[cities.index(a)][cities.index(b)]`. -/
def dist_between (net : Net α) (a b : String) : α :=
  matEntry net (net.cities.indexOf a) (net.cities.indexOf b)

/-- `travel_time_minutes(a, b) = (distance_matrix[i][j] / SPEED_KMPH) * 60`. -/
def travel_time_minutes (net : Net α) (a b : String) : α :=
  dist_between net a b / SPEED_KMPH * 60

/-- The mutable per-vehicle simulation state of `simulate_vehicle`:
`time_var`, `location`, remaining `capacity`, and the `route` built so far. -/
structure VState (α : Type) where
  time : α
  location : String
  capacity : α
  route : List (Leg α)
  deriving Repr

/-- Result of one pass through the body of the inner `while` loop:
`cont` = the loop continues with the new state, `stop` = the loop has
exited (either because `remaining ≤ 0` or through the `break`). -/
inductive StepRes (α : Type) where
  | cont (st : VState α) (rem : α)
  | stop (st : VState α) (rem : α)
  deriving Repr

/-- The delivery leg appended at src/app.py lines 90–94: travel from the
current location to `city`, delivering `min(capacity, remaining)`. -/
def deliverLeg (net : Net α) (city : String) (st : VState α) (rem : α) : Leg α :=
  { origin := st.location
    dest := city
    depart := st.time
    arrive := st.time + travel_time_minutes net st.location city
    deliver := min st.capacity rem
    unload := min st.capacity rem / 100 * UNLOAD_MIN_PER_100KG
    distance := dist_between net st.location city }

/-- The vehicle state after the delivery branch (src/app.py lines 85–98). -/
def afterDeliver (net : Net α) (city : String) (st : VState α) (rem : α) :
    VState α :=
  { time := st.time + travel_time_minutes net st.location city +
      min st.capacity rem / 100 * UNLOAD_MIN_PER_100KG
    location := city
    capacity := st.capacity - min st.capacity rem
    route := st.route ++ [deliverLeg net city st rem] }

/-- The zero-quantity return-to-depot leg (src/app.py lines 105–109 and
119–123). -/
def returnLeg (net : Net α) (st : VState α) : Leg α :=
  { origin := st.location
    dest := net.depot
    depart := st.time
    arrive := st.time + travel_time_minutes net st.location net.depot
    deliver := 0
    unload := 0
    distance := dist_between net st.location net.depot }

/-- The vehicle state after the refill branch (src/app.py lines 103–112):
back at the depot with capacity restored to the declared capacity `C`. -/
def afterRefill (net : Net α) (C : α) (st : VState α) : VState α :=
  { time := st.time + travel_time_minutes net st.location net.depot
    location := net.depot
    capacity := C
    route := st.route ++ [returnLeg net st] }

/-- One iteration of `while demands[city]['remaining'] > 0` in
`simulate_vehicle` (`C` is `vehicle['capacity']`, `rem` the city's current
remaining quantity).  Matches src/app.py lines 84–114. -/
def innerStep (net : Net α) (C : α) (city : String) (st : VState α) (rem : α) :
    StepRes α :=
  if 0 < rem then
    if 0 < st.capacity then
      .cont (afterDeliver net city st rem) (rem - min st.capacity rem)
    else
      let refill_time :=
        travel_time_minutes net st.location net.depot +
          travel_time_minutes net net.depot city
      let new_vehicle_time := travel_time_minutes net net.depot city
      if refill_time ≤ new_vehicle_time then
        .cont (afterRefill net C st) rem
      else
        .stop st rem
  else
    .stop st rem

/-- The inner `while` loop, with fuel bounding the number of `cont` steps;
`none` means the fuel ran out before the loop exited. -/
def innerLoop (net : Net α) (C : α) (city : String) :
    Nat → VState α → α → Option (VState α × α)
  | 0, st, rem =>
    match innerStep net C city st rem with
    | .stop st' rem' => some (st', rem')
    | .cont _ _ => none
  | n + 1, st, rem =>
    match innerStep net C city st rem with
    | .stop st' rem' => some (st', rem')
    | .cont st' rem' => innerLoop net C city n st' rem'

/-- `demands[city]['remaining']` on the association-list embedding of the
`demands_copy` dict (missing key reads as 0; never hit by the source's
access pattern). -/
def lookupRem (ds : List (String × α)) (c : String) : α :=
  ((ds.lookup c).getD 0)

/-- `demands[city]['remaining'] = v`: update the value at key `c`. -/
def setRem (ds : List (String × α)) (c : String) (v : α) : List (String × α) :=
  ds.map fun p => if p.1 = c then (p.1, v) else p

/-- `for city in demand_cities:` — run the inner loop for each demand city in
order, threading the vehicle state and the demands dict. -/
def simVisit (net : Net α) (C : α) (fuel : Nat) :
    List String → VState α → List (String × α) →
      Option (VState α × List (String × α))
  | [], st, ds => some (st, ds)
  | c :: cs, st, ds =>
    match innerLoop net C c fuel st (lookupRem ds c) with
    | none => none
    | some (st', rem') => simVisit net C fuel cs st' (setRem ds c rem')

/-- `simulate_vehicle(vehicle, demands)` (src/app.py lines 75–124): start at
the depot at the vehicle's start instant with full capacity, process the
demand cities in order, then close the route with a final return-to-depot leg
if the vehicle did not end at the depot.  Returns the route together with the
mutated demands dict (the source mutates `demands_copy` in place). -/
def simulate_vehicle (net : Net α) (v : Vehicle α) (ds : List (String × α))
    (fuel : Nat) : Option (List (Leg α) × List (String × α)) :=
  let st0 : VState α :=
    { time := v.start, location := net.depot, capacity := v.capacity, route := [] }
  match simVisit net v.capacity fuel (ds.map Prod.fst) st0 ds with
  | none => none
  | some (st, ds') =>
    if st.location = net.depot then
      some (st.route, ds')
    else
      some (st.route ++ [returnLeg net st], ds')

/-- `np.radians(x) = x * π / 180`. -/
noncomputable def radians (x : ℝ) : ℝ :=
  x * (Real.pi / 180)

/-- `haversine_distance(c1, c2)` (src/app.py lines 23–34): great-circle
distance by the haversine formula with mean Earth radius 6371 km, inflated by
the 1.3 road-circuity factor, and the matching duration at 50 km/h.  Embedded
over `ℝ` with exact trigonometric functions (the source uses numpy floats). -/
noncomputable def haversine_distance (c1 c2 : ℝ × ℝ) : ℝ × ℝ :=
  let lat1 := radians c1.1
  let lon1 := radians c1.2
  let lat2 := radians c2.1
  let lon2 := radians c2.2
  let dlat := lat2 - lat1
  let dlon := lon2 - lon1
  let a := Real.sin (dlat / 2) ^ 2 +
    Real.cos lat1 * Real.cos lat2 * Real.sin (dlon / 2) ^ 2
  let c := 2 * Real.arcsin (Real.sqrt a)
  let r : ℝ := 6371
  let distance_km := r * c
  (distance_km * 1.3, distance_km * 1.3 / 50 * 60)

/-- The distance matrix `build_matrices` produces (src/app.py lines 194–206)
when every Oracle call takes the fallback path (remote service disabled):
`D[i][j] = haversine_distance(coords[i], coords[j])[0]` for `i ≠ j`, diagonal
left at its zero initialization. -/
noncomputable def fallback_matrix (coords : List (ℝ × ℝ)) : List (List ℝ) :=
  (List.range coords.length).map fun i =>
    (List.range coords.length).map fun j =>
      if i = j then 0
      else (haversine_distance (coords.getD i (0, 0)) (coords.getD j (0, 0))).1

/-- One assignment step of the dict comprehension
`{d['city']: {'remaining': d['demand']} for d in demands}`: a repeated key
keeps its first-insertion position but takes the new value. -/
def dictInsert (ds : List (String × α)) (c : String) (v : α) :
    List (String × α) :=
  if ds.any (fun p => p.1 == c) then setRem ds c v else ds ++ [(c, v)]

/-- `demands_copy = {d['city']: {'remaining': d['demand']} for d in demands}`. -/
def demandsCopy (demands : List (DemandRec α)) : List (String × α) :=
  demands.foldl (fun acc d => dictInsert acc d.city d.demand) []

/-- The vehicle loop of `run_vrptw` (src/app.py lines 126–132): simulate each
vehicle in order while some demand remains, collecting non-empty routes;
returns the solution together with the final demands dict. -/
def runVehicles (net : Net α) (fuel : Nat) :
    List (Vehicle α) → List (String × α) →
      Option (List (Nat × List (Leg α)) × List (String × α))
  | [], ds => some ([], ds)
  | v :: vs, ds =>
    if ds.any (fun p => decide (0 < p.2)) then
      match simulate_vehicle net v ds fuel with
      | none => none
      | some (route, ds') =>
        match runVehicles net fuel vs ds' with
        | none => none
        | some (sol, ds'') =>
          some ((if route.isEmpty then sol else (v.id, route) :: sol), ds'')
    else
      runVehicles net fuel vs ds

/-- `run_vrptw(vehicles, demands, cities, coords, distance_matrix, depot)`:
build `demands_copy`, run the vehicle loop, return the solution (a map from
vehicle id to its route, in vehicle order). -/
def run_vrptw (net : Net α) (vehicles : List (Vehicle α))
    (demands : List (DemandRec α)) (fuel : Nat) :
    Option (List (Nat × List (Leg α))) :=
  (runVehicles net fuel vehicles (demandsCopy demands)).map Prod.fst

/-! ## Derived observation functions used to state the claims -/

/-- Total quantity delivered to city `c` by a list of legs. -/
def citySum (c : String) (legs : List (Leg α)) : α :=
  ((legs.filter fun l => l.dest == c).map Leg.deliver).sum

/-- Total quantity delivered to city `c` across all routes of a solution. -/
def totalCitySum (sol : List (Nat × List (Leg α))) (c : String) : α :=
  (sol.map fun p => citySum c p.2).sum

/-- `checkSegs C acc legs = true` iff, splitting `legs` into maximal runs of
delivery legs separated by the zero-quantity refill/return legs, every run
(together with the quantity `acc` already delivered in the current run)
delivers at most `C` in total. -/
def checkSegs (C : α) : α → List (Leg α) → Bool
  | acc, [] => decide (acc ≤ C)
  | acc, l :: ls =>
    if l.deliver = 0 then decide (acc ≤ C) && checkSegs C 0 ls
    else checkSegs C (acc + l.deliver) ls

/-- Modelled from the spec (§4.1): the great-circle distance between two
coordinate pairs "via the haversine formula (mean Earth radius 6371 km)",
written independently of `haversine_distance` for the refinement claim. -/
noncomputable def great_circle_km (c1 c2 : ℝ × ℝ) : ℝ :=
  let φ1 := c1.1 * (Real.pi / 180)
  let lam1 := c1.2 * (Real.pi / 180)
  let φ2 := c2.1 * (Real.pi / 180)
  let lam2 := c2.2 * (Real.pi / 180)
  6371 * (2 * Real.arcsin (Real.sqrt (Real.sin ((φ2 - φ1) / 2) ^ 2 +
    Real.cos φ1 * Real.cos φ2 * Real.sin ((lam2 - lam1) / 2) ^ 2)))

/-! ## Concrete scenarios -/

/-- A two-city network over `ℚ`: depot `"A"`, demand city `"B"`, 10 km
apart in both directions. -/
def net2 : Net ℚ := ⟨["A", "B"], [[0, 10], [10, 0]], "A"⟩

/-- The fallback-only scenario network of §8: supply `"A"` at `(0,0)`,
demand city `"B"` at `(0, 1°)`, distances from the haversine fallback. -/
noncomputable def net5 : Net ℝ := ⟨["A", "B"], fallback_matrix [(0, 0), (0, 1)], "A"⟩

/-- The road-inflated haversine distance from `(0,0)` to `(0,1°)`, i.e. the
matrix entry of `net5` between the two cities. -/
noncomputable def hav01 : ℝ := (haversine_distance (0, 0) (0, 1)).1

/-- The remaining quantity carried by a loop-body result. -/
def StepRes.remaining : StepRes α → α
  | .cont _ rem => rem
  | .stop _ rem => rem

/-- The vehicle state carried by a loop-body result. -/
def StepRes.state : StepRes α → VState α
  | .cont st _ => st
  | .stop st _ => st

/-! ## Step characterizations -/

lemma innerStep_of_nonpos (net : Net α) (C : α) (city : String) (st : VState α)
    {rem : α} (h : ¬ 0 < rem) : innerStep net C city st rem = .stop st rem := by
  simp [innerStep, h]

lemma innerStep_deliver (net : Net α) (C : α) (city : String) (st : VState α)
    {rem : α} (h : 0 < rem) (hc : 0 < st.capacity) :
    innerStep net C city st rem =
      .cont (afterDeliver net city st rem) (rem - min st.capacity rem) := by
  simp [innerStep, h, hc]

lemma innerStep_refill (net : Net α) (C : α) (city : String) (st : VState α)
    {rem : α} (h : 0 < rem) (hc : ¬ 0 < st.capacity)
    (hcond : travel_time_minutes net st.location net.depot +
        travel_time_minutes net net.depot city ≤
      travel_time_minutes net net.depot city) :
    innerStep net C city st rem = .cont (afterRefill net C st) rem := by
  simp [innerStep, h, hc, hcond]

lemma innerStep_abandon (net : Net α) (C : α) (city : String) (st : VState α)
    {rem : α} (h : 0 < rem) (hc : ¬ 0 < st.capacity)
    (hcond : ¬ (travel_time_minutes net st.location net.depot +
        travel_time_minutes net net.depot city ≤
      travel_time_minutes net net.depot city)) :
    innerStep net C city st rem = .stop st rem := by
  simp [innerStep, h, hc, hcond]

lemma innerStep_stop_cases {net : Net α} {C : α} {city : String}
    {st st' : VState α} {rem rem' : α}
    (h : innerStep net C city st rem = .stop st' rem') :
    st' = st ∧ rem' = rem ∧
      (rem ≤ 0 ∨ (¬ 0 < st.capacity ∧
        ¬ (travel_time_minutes net st.location net.depot +
            travel_time_minutes net net.depot city ≤
          travel_time_minutes net net.depot city))) := by
  by_cases h1 : 0 < rem
  · by_cases h2 : 0 < st.capacity
    · rw [innerStep_deliver net C city st h1 h2] at h
      exact absurd h (by simp)
    · by_cases h3 : travel_time_minutes net st.location net.depot +
          travel_time_minutes net net.depot city ≤
        travel_time_minutes net net.depot city
      · rw [innerStep_refill net C city st h1 h2 h3] at h
        exact absurd h (by simp)
      · rw [innerStep_abandon net C city st h1 h2 h3] at h
        injection h with ha hb
        exact ⟨ha.symm, hb.symm, Or.inr ⟨h2, h3⟩⟩
  · rw [innerStep_of_nonpos net C city st h1] at h
    injection h with ha hb
    exact ⟨ha.symm, hb.symm, Or.inl (not_lt.mp h1)⟩

lemma innerStep_cont_cases {net : Net α} {C : α} {city : String}
    {st st' : VState α} {rem rem' : α}
    (h : innerStep net C city st rem = .cont st' rem') :
    0 < rem ∧
      ((0 < st.capacity ∧ st' = afterDeliver net city st rem ∧
          rem' = rem - min st.capacity rem) ∨
        (¬ 0 < st.capacity ∧
          (travel_time_minutes net st.location net.depot +
              travel_time_minutes net net.depot city ≤
            travel_time_minutes net net.depot city) ∧
          st' = afterRefill net C st ∧ rem' = rem)) := by
  by_cases h1 : 0 < rem
  · by_cases h2 : 0 < st.capacity
    · rw [innerStep_deliver net C city st h1 h2] at h
      injection h with ha hb
      exact ⟨h1, Or.inl ⟨h2, ha.symm, hb.symm⟩⟩
    · by_cases h3 : travel_time_minutes net st.location net.depot +
          travel_time_minutes net net.depot city ≤
        travel_time_minutes net net.depot city
      · rw [innerStep_refill net C city st h1 h2 h3] at h
        injection h with ha hb
        exact ⟨h1, Or.inr ⟨h2, h3, ha.symm, hb.symm⟩⟩
      · rw [innerStep_abandon net C city st h1 h2 h3] at h
        exact absurd h (by simp)
  · rw [innerStep_of_nonpos net C city st h1] at h
    exact absurd h (by simp)

/-! ## Fuel monotonicity -/

lemma innerLoop_mono {net : Net α} {C : α} {city : String} :
    ∀ {f f' : Nat}, f ≤ f' → ∀ {st : VState α} {rem : α} {r},
      innerLoop net C city f st rem = some r →
      innerLoop net C city f' st rem = some r := by
  intro f
  induction f with
  | zero =>
    intro f' _ st rem r h
    rw [innerLoop] at h
    cases hstep : innerStep net C city st rem with
    | stop st₁ rem₁ =>
      rw [hstep] at h
      cases f' <;> simp [innerLoop, hstep] <;> exact Option.some.inj h
    | cont st₁ rem₁ => rw [hstep] at h; cases h
  | succ n ih =>
    intro f' hf st rem r h
    rw [innerLoop] at h
    cases hstep : innerStep net C city st rem with
    | stop st₁ rem₁ =>
      rw [hstep] at h
      cases f' <;> simp [innerLoop, hstep] <;> exact Option.some.inj h
    | cont st₁ rem₁ =>
      rw [hstep] at h
      obtain ⟨m, rfl⟩ : ∃ m, f' = m + 1 := by
        cases f' with
        | zero => omega
        | succ m => exact ⟨m, rfl⟩
      rw [innerLoop, hstep]
      exact ih (by omega) h

lemma simVisit_mono {net : Net α} {C : α} {f f' : Nat} (hf : f ≤ f') :
    ∀ {cs : List String} {st : VState α} {ds : List (String × α)} {r},
      simVisit net C f cs st ds = some r →
      simVisit net C f' cs st ds = some r := by
  intro cs
  induction cs with
  | nil => intro st ds r h; simpa [simVisit] using h
  | cons c cs ih =>
    intro st ds r h
    rw [simVisit] at h
    cases hloop : innerLoop net C c f st (lookupRem ds c) with
    | none => rw [hloop] at h; cases h
    | some p =>
      rw [hloop] at h
      rw [simVisit, innerLoop_mono hf hloop]
      exact ih h

lemma simulate_vehicle_mono {net : Net α} {v : Vehicle α}
    {ds : List (String × α)} {f f' : Nat} (hf : f ≤ f') {r}
    (h : simulate_vehicle net v ds f = some r) :
    simulate_vehicle net v ds f' = some r := by
  rw [simulate_vehicle] at h ⊢
  cases hv : simVisit net v.capacity f (ds.map Prod.fst)
      ⟨v.start, net.depot, v.capacity, []⟩ ds with
  | none => rw [hv] at h; cases h
  | some p =>
    rw [hv] at h
    rw [simVisit_mono hf hv]
    exact h

lemma runVehicles_mono {net : Net α} {f f' : Nat} (hf : f ≤ f') :
    ∀ {vs : List (Vehicle α)} {ds : List (String × α)} {r},
      runVehicles net f vs ds = some r →
      runVehicles net f' vs ds = some r := by
  intro vs
  induction vs with
  | nil => intro ds r h; simpa [runVehicles] using h
  | cons v vs ih =>
    intro ds r h
    rw [runVehicles] at h
    by_cases hany : ds.any (fun p => decide (0 < p.2))
    · rw [if_pos hany] at h
      rw [runVehicles, if_pos hany]
      cases hsim : simulate_vehicle net v ds f with
      | none => rw [hsim] at h; cases h
      | some p =>
        obtain ⟨route, ds2⟩ := p
        rw [hsim] at h
        rw [simulate_vehicle_mono hf hsim]
        dsimp only at h ⊢
        cases hrec : runVehicles net f vs ds2 with
        | none => rw [hrec] at h; cases h
        | some q =>
          rw [hrec] at h
          rw [ih hrec]
          exact h
    · rw [if_neg hany] at h
      rw [runVehicles, if_neg hany]
      exact ih h

lemma run_vrptw_mono {net : Net α} {vehicles : List (Vehicle α)}
    {demands : List (DemandRec α)} {f f' : Nat} (hf : f ≤ f') {r}
    (h : run_vrptw net vehicles demands f = some r) :
    run_vrptw net vehicles demands f' = some r := by
  rw [run_vrptw] at h ⊢
  cases hrun : runVehicles net f vehicles (demandsCopy demands) with
  | none => rw [hrun] at h; cases h
  | some p =>
    rw [hrun] at h
    rw [runVehicles_mono hf hrun]
    exact h

/-! ## Association-list dictionary lemmas -/

lemma lookup_pair_cons_self {β : Type} (c : String) (w : β) (ds : List (String × β)) :
    ((c, w) :: ds).lookup c = some w := by
  simp [List.lookup]

lemma lookup_pair_cons_ne {β : Type} {c k : String} (h : c ≠ k) (w : β)
    (ds : List (String × β)) : ((k, w) :: ds).lookup c = ds.lookup c := by
  simp [List.lookup, beq_eq_false_iff_ne.mpr h]

lemma lookup_setRem_self (ds : List (String × α)) (c : String) (v : α) :
    (setRem ds c v).lookup c = (ds.lookup c).map fun _ => v := by
  induction ds with
  | nil => simp [setRem]
  | cons p ds ih =>
    obtain ⟨k, w⟩ := p
    by_cases h : k = c
    · subst h
      simp [setRem, lookup_pair_cons_self]
    · simp only [setRem, List.map_cons, if_neg h]
      rw [lookup_pair_cons_ne (fun hc => h hc.symm), lookup_pair_cons_ne (fun hc => h hc.symm)]
      exact ih

lemma lookup_setRem_ne (ds : List (String × α)) {c c' : String} (h : c' ≠ c) (v : α) :
    (setRem ds c v).lookup c' = ds.lookup c' := by
  induction ds with
  | nil => simp [setRem]
  | cons p ds ih =>
    obtain ⟨k, w⟩ := p
    by_cases hp : k = c
    · subst hp
      simp only [setRem, List.map_cons, eq_self_iff_true, if_true]
      rw [lookup_pair_cons_ne h, lookup_pair_cons_ne h]
      exact ih
    · by_cases hck : c' = k
      · subst hck
        simp only [setRem, List.map_cons, if_neg hp, lookup_pair_cons_self]
      · simp only [setRem, List.map_cons, if_neg hp]
        rw [lookup_pair_cons_ne hck, lookup_pair_cons_ne hck]
        exact ih

lemma lookupRem_setRem_self_of_isSome (ds : List (String × α)) (c : String)
    (v : α) (hmem : (ds.lookup c).isSome = true) :
    lookupRem (setRem ds c v) c = v := by
  rw [lookupRem, lookup_setRem_self]
  cases h : ds.lookup c with
  | none => rw [h] at hmem; cases hmem
  | some w => simp

lemma lookupRem_setRem_ne (ds : List (String × α)) {c c' : String}
    (h : c' ≠ c) (v : α) : lookupRem (setRem ds c v) c' = lookupRem ds c' := by
  rw [lookupRem, lookup_setRem_ne ds h, lookupRem]

/-! ## Delivery accounting and segment invariants -/

lemma citySum_nil (c : String) : citySum c ([] : List (Leg α)) = 0 := rfl

lemma citySum_cons (c : String) (l : Leg α) (ls : List (Leg α)) :
    citySum c (l :: ls) = (if l.dest = c then l.deliver else 0) + citySum c ls := by
  by_cases h : l.dest = c
  · simp [citySum, List.filter_cons, h]
  · simp [citySum, List.filter_cons, beq_eq_false_iff_ne.mpr h, h]

lemma checkSegs_cons_zero {C acc : α} {l : Leg α} (h : l.deliver = 0)
    (ls : List (Leg α)) :
    checkSegs C acc (l :: ls) = (decide (acc ≤ C) && checkSegs C 0 ls) := by
  simp [checkSegs, h]

lemma checkSegs_cons_pos {C acc : α} {l : Leg α} (h : l.deliver ≠ 0)
    (ls : List (Leg α)) :
    checkSegs C acc (l :: ls) = checkSegs C (acc + l.deliver) ls := by
  simp [checkSegs, h]

lemma innerLoop_run {net : Net α} {C : α} {city : String} :
    ∀ {fuel : Nat} {st : VState α} {rem : α} {st' : VState α} {rem' : α},
      innerLoop net C city fuel st rem = some (st', rem') →
      ∃ Δ : List (Leg α),
        st'.route = st.route ++ Δ ∧
        (∀ c, citySum c Δ = if c = city then rem - rem' else 0) ∧
        (Δ = [] → st' = st ∧ rem' = rem) ∧
        (∀ l, Δ.getLast? = some l → l.dest = st'.location) ∧
        (0 ≤ C → 0 ≤ st.capacity → 0 ≤ rem →
          0 ≤ st'.capacity ∧ 0 ≤ rem' ∧ rem' ≤ rem ∧
          ∀ acc : α, 0 ≤ acc → acc + st.capacity ≤ C →
            ∃ acc', 0 ≤ acc' ∧ acc' + st'.capacity ≤ C ∧
              ∀ rest, checkSegs C acc (Δ ++ rest) = checkSegs C acc' rest) := by
  intro fuel
  induction fuel with
  | zero =>
    intro st rem st' rem' h
    rw [innerLoop] at h
    cases hstep : innerStep net C city st rem with
    | cont st₁ rem₁ => rw [hstep] at h; cases h
    | stop st₁ rem₁ =>
      rw [hstep] at h
      injection h with hp
      obtain ⟨h1, h2⟩ := Prod.mk.inj hp
      obtain ⟨ha, hb, -⟩ := innerStep_stop_cases hstep
      subst h1; subst h2; subst ha; subst hb
      refine ⟨[], by simp, by simp [citySum], fun _ => ⟨rfl, rfl⟩, by simp, ?_⟩
      intro _ hcap hrem
      exact ⟨hcap, hrem, le_refl _, fun acc hacc haccC =>
        ⟨acc, hacc, haccC, fun rest => by simp⟩⟩
  | succ n ih =>
    intro st rem st' rem' h
    rw [innerLoop] at h
    cases hstep : innerStep net C city st rem with
    | stop st₁ rem₁ =>
      rw [hstep] at h
      injection h with hp
      obtain ⟨h1, h2⟩ := Prod.mk.inj hp
      obtain ⟨ha, hb, -⟩ := innerStep_stop_cases hstep
      subst h1; subst h2; subst ha; subst hb
      refine ⟨[], by simp, by simp [citySum], fun _ => ⟨rfl, rfl⟩, by simp, ?_⟩
      intro _ hcap hrem
      exact ⟨hcap, hrem, le_refl _, fun acc hacc haccC =>
        ⟨acc, hacc, haccC, fun rest => by simp⟩⟩
    | cont st₁ rem₁ =>
      rw [hstep] at h
      obtain ⟨Δ₁, hroute, hsum, hnil, hlast, hinv⟩ := ih h
      obtain ⟨hrem, hcases⟩ := innerStep_cont_cases hstep
      rcases hcases with ⟨hcap, hst₁, hrem₁⟩ | ⟨hcap, hcond, hst₁, hrem₁⟩
      · -- delivery step
        subst hst₁; subst hrem₁
        refine ⟨deliverLeg net city st rem :: Δ₁, ?_, ?_, by simp, ?_, ?_⟩
        · rw [hroute]; simp [afterDeliver]
        · intro c
          rw [citySum_cons, hsum c]
          by_cases hc : c = city
          · subst hc
            simp [deliverLeg]
            ring
          · have hc' : city ≠ c := Ne.symm hc
            simp [deliverLeg, hc, hc']
        · intro l hl
          cases Δ₁ with
          | nil =>
            simp at hl
            obtain ⟨hst', hrem'⟩ := hnil rfl
            rw [hst', ← hl]
            simp [deliverLeg, afterDeliver]
          | cons a as =>
            rw [List.getLast?_cons_cons] at hl
            exact hlast l hl
        · intro hC hcap0 hrem0
          have hmin_le_cap : min st.capacity rem ≤ st.capacity := min_le_left _ _
          have hmin_le_rem : min st.capacity rem ≤ rem := min_le_right _ _
          have hmin_pos : 0 < min st.capacity rem := lt_min hcap hrem
          have hcap₁ : 0 ≤ (afterDeliver net city st rem).capacity := by
            show 0 ≤ st.capacity - min st.capacity rem
            linarith
          have hrem₁0 : (0:α) ≤ rem - min st.capacity rem := by linarith
          obtain ⟨hc', hr', hrr', hseg⟩ := hinv hC hcap₁ hrem₁0
          refine ⟨hc', hr', by linarith, ?_⟩
          intro acc hacc haccC
          have hacc' : 0 ≤ acc + min st.capacity rem := by linarith
          have haccC' : (acc + min st.capacity rem) +
              (afterDeliver net city st rem).capacity ≤ C := by
            show acc + min st.capacity rem + (st.capacity - min st.capacity rem) ≤ C
            linarith
          obtain ⟨acc', ha1, ha2, ha3⟩ := hseg _ hacc' haccC'
          refine ⟨acc', ha1, ha2, fun rest => ?_⟩
          rw [List.cons_append, checkSegs_cons_pos (by simp [deliverLeg]; linarith)]
          exact ha3 rest
      · -- refill step
        subst hst₁; subst hrem₁
        refine ⟨returnLeg net st :: Δ₁, ?_, ?_, by simp, ?_, ?_⟩
        · rw [hroute]; simp [afterRefill]
        · intro c
          rw [citySum_cons, hsum c]
          simp [returnLeg]
        · intro l hl
          cases Δ₁ with
          | nil =>
            simp at hl
            obtain ⟨hst', hrem'⟩ := hnil rfl
            rw [hst', ← hl]
            simp [returnLeg, afterRefill]
          | cons a as =>
            rw [List.getLast?_cons_cons] at hl
            exact hlast l hl
        · intro hC hcap0 hrem0
          have hcap₁ : 0 ≤ (afterRefill net C st).capacity := hC
          obtain ⟨hc', hr', hrr', hseg⟩ := hinv hC hcap₁ hrem0
          refine ⟨hc', hr', hrr', ?_⟩
          intro acc hacc haccC
          obtain ⟨acc', ha1, ha2, ha3⟩ := hseg 0 (le_refl 0)
            (by simp [afterRefill])
          refine ⟨acc', ha1, ha2, fun rest => ?_⟩
          rw [List.cons_append, checkSegs_cons_zero (by simp [returnLeg])]
          rw [ha3 rest]
          have : decide (acc ≤ C) = true := by
            rw [decide_eq_true_eq]; linarith
          rw [this, Bool.true_and]


lemma citySum_append (c : String) (xs ys : List (Leg α)) :
    citySum c (xs ++ ys) = citySum c xs + citySum c ys := by
  simp [citySum]

lemma innerLoop_of_nonpos (net : Net α) (C : α) (city : String) (fuel : Nat)
    (st : VState α) {rem : α} (h : ¬ 0 < rem) :
    innerLoop net C city fuel st rem = some (st, rem) := by
  cases fuel <;> rw [innerLoop, innerStep_of_nonpos net C city st h]

lemma lookupRem_setRem_self (ds : List (String × α)) (c : String) (v : α) :
    lookupRem (setRem ds c v) c =
      if (ds.lookup c).isSome then v else 0 := by
  rw [lookupRem, lookup_setRem_self]
  cases h : ds.lookup c <;> simp

lemma simVisit_run {net : Net α} {C : α} {fuel : Nat} :
    ∀ {cs : List String} {st : VState α} {ds : List (String × α)}
      {st' : VState α} {ds' : List (String × α)},
      simVisit net C fuel cs st ds = some (st', ds') →
      ∃ Δ : List (Leg α),
        st'.route = st.route ++ Δ ∧
        (∀ c, lookupRem ds' c = lookupRem ds c - citySum c Δ) ∧
        (∀ l, Δ.getLast? = some l → l.dest = st'.location) ∧
        (Δ = [] → st'.location = st.location) ∧
        (0 ≤ C → 0 ≤ st.capacity → (∀ c, 0 ≤ lookupRem ds c) →
          0 ≤ st'.capacity ∧ (∀ c, 0 ≤ lookupRem ds' c) ∧
          ∀ acc : α, 0 ≤ acc → acc + st.capacity ≤ C →
            ∃ acc', 0 ≤ acc' ∧ acc' + st'.capacity ≤ C ∧
              ∀ rest, checkSegs C acc (Δ ++ rest) = checkSegs C acc' rest) := by
  intro cs
  induction cs with
  | nil =>
    intro st ds st' ds' h
    rw [simVisit] at h
    injection h with hp
    obtain ⟨h1, h2⟩ := Prod.mk.inj hp
    subst h1; subst h2
    refine ⟨[], by simp, by simp [citySum], by simp, fun _ => rfl, ?_⟩
    intro _ hcap hds
    exact ⟨hcap, hds, fun acc hacc haccC =>
      ⟨acc, hacc, haccC, fun rest => by simp⟩⟩
  | cons c0 cs ih =>
    intro st ds st' ds' h
    rw [simVisit] at h
    cases hloop : innerLoop net C c0 fuel st (lookupRem ds c0) with
    | none => rw [hloop] at h; cases h
    | some p =>
      obtain ⟨st₁, rem₁⟩ := p
      rw [hloop] at h
      dsimp only at h
      obtain ⟨Δ₁, hroute₁, hlook₁, hlast₁, hnil₁, hinv₁⟩ := ih h
      obtain ⟨Δ₀, hroute₀, hsum₀, hnil₀, hlast₀, hinv₀⟩ := innerLoop_run hloop
      have hrem₁eq : lookupRem (setRem ds c0 rem₁) c0 = rem₁ ∨
          (lookupRem ds c0 = 0 ∧ rem₁ = 0 ∧ lookupRem (setRem ds c0 rem₁) c0 = 0) := by
        rw [lookupRem_setRem_self]
        by_cases hs : (ds.lookup c0).isSome
        · exact Or.inl (by rw [if_pos hs])
        · have hzero : lookupRem ds c0 = 0 := by
            rw [lookupRem]
            cases hl : ds.lookup c0 with
            | none => rfl
            | some w => rw [hl] at hs; simp at hs
          have : innerLoop net C c0 fuel st (lookupRem ds c0) = some (st, lookupRem ds c0) :=
            innerLoop_of_nonpos net C c0 fuel st (by rw [hzero]; exact lt_irrefl 0)
          rw [this] at hloop
          injection hloop with hq
          obtain ⟨-, h2⟩ := Prod.mk.inj hq
          exact Or.inr ⟨hzero, by rw [← h2, hzero], by rw [if_neg hs]⟩
      have hsetlook : ∀ c, lookupRem (setRem ds c0 rem₁) c =
          lookupRem ds c - citySum c Δ₀ := by
        intro c
        by_cases hc : c = c0
        · subst hc
          rw [hsum₀ c, if_pos rfl]
          rcases hrem₁eq with he | ⟨hz1, hz2, he⟩
          · rw [he]; ring
          · rw [he, hz1, hz2]; ring
        · rw [lookupRem_setRem_ne ds hc, hsum₀ c, if_neg hc]
          ring
      refine ⟨Δ₀ ++ Δ₁, ?_, ?_, ?_, ?_, ?_⟩
      · rw [hroute₁, hroute₀, List.append_assoc]
      · intro c
        rw [hlook₁ c, hsetlook c, citySum_append]
        ring
      · intro l hl
        by_cases hne : Δ₁ = []
        · subst hne
          rw [List.append_nil] at hl
          rw [hlast₀ l hl]
          exact (hnil₁ rfl).symm
        · obtain ⟨l₁, hl₁⟩ := Option.isSome_iff_exists.mp (List.getLast?_isSome.mpr hne)
          rw [List.getLast?_append, hl₁, Option.or_some] at hl
          injection hl with he
          exact hlast₁ l (he ▸ hl₁)
      · intro hΔ
        rcases List.append_eq_nil.mp hΔ with ⟨h0, h1⟩
        rw [hnil₁ h1, (hnil₀ h0).1]
      · intro hC hcap hds
        have hrem0 : 0 ≤ lookupRem ds c0 := hds c0
        obtain ⟨hcap₁, hrem₁0, -, hseg₀⟩ := hinv₀ hC hcap hrem0
        have hds₁ : ∀ c, 0 ≤ lookupRem (setRem ds c0 rem₁) c := by
          intro c
          rw [hsetlook c, hsum₀ c]
          by_cases hc : c = c0
          · subst hc; rw [if_pos rfl]; linarith
          · rw [if_neg hc]; linarith [hds c]
        obtain ⟨hcap', hds', hseg₁⟩ := hinv₁ hC hcap₁ hds₁
        refine ⟨hcap', hds', ?_⟩
        intro acc hacc haccC
        obtain ⟨acc₀, hb1, hb2, hb3⟩ := hseg₀ acc hacc haccC
        obtain ⟨acc₁, hc1, hc2, hc3⟩ := hseg₁ acc₀ hb1 hb2
        refine ⟨acc₁, hc1, hc2, fun rest => ?_⟩
        rw [List.append_assoc, hb3 (Δ₁ ++ rest), hc3 rest]


lemma totalCitySum_nil (c : String) :
    totalCitySum ([] : List (Nat × List (Leg α))) c = 0 := rfl

lemma totalCitySum_cons (c : String) (i : Nat) (r : List (Leg α))
    (sol : List (Nat × List (Leg α))) :
    totalCitySum ((i, r) :: sol) c = citySum c r + totalCitySum sol c := by
  simp [totalCitySum]

lemma checkSegs_nil_true {C acc : α} (h : acc ≤ C) :
    checkSegs C acc ([] : List (Leg α)) = true := by
  simp [checkSegs, h]

lemma simulate_vehicle_run {net : Net α} {v : Vehicle α}
    {ds : List (String × α)} {fuel : Nat} {route : List (Leg α)}
    {ds' : List (String × α)}
    (h : simulate_vehicle net v ds fuel = some (route, ds')) :
    (∀ c, lookupRem ds' c = lookupRem ds c - citySum c route) ∧
    (∀ l, route.getLast? = some l → l.dest = net.depot) ∧
    (0 ≤ v.capacity → (∀ c, 0 ≤ lookupRem ds c) →
      (∀ c, 0 ≤ lookupRem ds' c) ∧ checkSegs v.capacity 0 route = true) := by
  rw [simulate_vehicle] at h
  cases hv : simVisit net v.capacity fuel (ds.map Prod.fst)
      ⟨v.start, net.depot, v.capacity, []⟩ ds with
  | none => rw [hv] at h; cases h
  | some p =>
    obtain ⟨st, ds₁⟩ := p
    rw [hv] at h
    dsimp only at h
    obtain ⟨Δ, hroute, hlook, hlast, hnil, hinv⟩ := simVisit_run hv
    have hΔ : Δ = st.route := by rw [hroute]; simp
    subst hΔ
    by_cases hloc : st.location = net.depot
    · rw [if_pos hloc] at h
      injection h with hp
      obtain ⟨h1, h2⟩ := Prod.mk.inj hp
      subst h1; subst h2
      refine ⟨hlook, ?_, ?_⟩
      · intro l hl
        rw [hlast l hl, hloc]
      · intro hcap hds
        obtain ⟨hc', hds', hseg⟩ := hinv hcap hcap hds
        refine ⟨hds', ?_⟩
        obtain ⟨acc', ha1, ha2, ha3⟩ := hseg 0 (le_refl 0) (by simpa using hcap)
        have := ha3 []
        rw [List.append_nil] at this
        rw [this]
        exact checkSegs_nil_true (by linarith)
    · rw [if_neg hloc] at h
      injection h with hp
      obtain ⟨h1, h2⟩ := Prod.mk.inj hp
      subst h2
      refine ⟨?_, ?_, ?_⟩
      · intro c
        rw [← h1, citySum_append, hlook c, citySum_cons, citySum_nil]
        have : (returnLeg net st).deliver = 0 := rfl
        rw [this]
        simp
      · intro l hl
        rw [← h1] at hl
        rw [List.getLast?_append, List.getLast?_cons, List.getLast?_nil] at hl
        simp only [Option.or_some] at hl
        injection hl with he
        rw [← he]
        rfl
      · intro hcap hds
        obtain ⟨hc', hds', hseg⟩ := hinv hcap hcap hds
        refine ⟨hds', ?_⟩
        obtain ⟨acc', ha1, ha2, ha3⟩ := hseg 0 (le_refl 0) (by simpa using hcap)
        rw [← h1]
        rw [ha3 [returnLeg net st]]
        rw [checkSegs_cons_zero rfl]
        rw [checkSegs_nil_true hcap]
        have : decide (acc' ≤ v.capacity) = true := by
          rw [decide_eq_true_eq]; linarith
        rw [this, Bool.true_and]

lemma runVehicles_run {net : Net α} {fuel : Nat} :
    ∀ {vs : List (Vehicle α)} {ds : List (String × α)}
      {sol : List (Nat × List (Leg α))} {ds' : List (String × α)},
      runVehicles net fuel vs ds = some (sol, ds') →
      (∀ c, lookupRem ds' c = lookupRem ds c - totalCitySum sol c) ∧
      ((∀ v ∈ vs, 0 ≤ v.capacity) → (∀ c, 0 ≤ lookupRem ds c) →
        (∀ c, 0 ≤ lookupRem ds' c)) := by
  intro vs
  induction vs with
  | nil =>
    intro ds sol ds' h
    rw [runVehicles] at h
    injection h with hp
    obtain ⟨h1, h2⟩ := Prod.mk.inj hp
    subst h1; subst h2
    exact ⟨fun c => by rw [totalCitySum_nil]; ring, fun _ hds => hds⟩
  | cons v vs ih =>
    intro ds sol ds' h
    rw [runVehicles] at h
    by_cases hany : ds.any (fun p => decide (0 < p.2))
    · rw [if_pos hany] at h
      cases hsim : simulate_vehicle net v ds fuel with
      | none => rw [hsim] at h; cases h
      | some p =>
        obtain ⟨route, ds₁⟩ := p
        rw [hsim] at h
        dsimp only at h
        cases hrec : runVehicles net fuel vs ds₁ with
        | none => rw [hrec] at h; cases h
        | some q =>
          obtain ⟨sol₁, ds₂⟩ := q
          rw [hrec] at h
          dsimp only at h
          injection h with hp
          obtain ⟨h1, h2⟩ := Prod.mk.inj hp
          obtain ⟨hlook₀, -, hinv₀⟩ := simulate_vehicle_run hsim
          obtain ⟨hlook₁, hinv₁⟩ := ih hrec
          have hsum : ∀ c, lookupRem ds₂ c = lookupRem ds c -
              (citySum c route + totalCitySum sol₁ c) := by
            intro c
            rw [hlook₁ c, hlook₀ c]
            ring
          constructor
          · intro c
            rw [← h1, ← h2]
            by_cases hre : route.isEmpty
            · rw [if_pos hre]
              have : citySum c route = 0 := by
                rw [List.isEmpty_iff.mp hre, citySum_nil]
              rw [hsum c, this]
              ring
            · rw [if_neg hre, totalCitySum_cons]
              exact hsum c
          · intro hcaps hds
            intro c
            rw [← h2]
            exact hinv₁ (fun w hw => hcaps w (List.mem_cons_of_mem v hw))
              ((hinv₀ (hcaps v (List.mem_cons_self v vs)) hds).1) c
    · rw [if_neg hany] at h
      obtain ⟨hlook₁, hinv₁⟩ := ih h
      exact ⟨hlook₁, fun hcaps hds =>
        hinv₁ (fun w hw => hcaps w (List.mem_cons_of_mem v hw)) hds⟩


lemma lookup_append {β : Type} (ds es : List (String × β)) (c : String) :
    (ds ++ es).lookup c = (ds.lookup c).or (es.lookup c) := by
  induction ds with
  | nil => simp
  | cons p ds ih =>
    obtain ⟨k, w⟩ := p
    by_cases h : c = k
    · subst h
      rw [List.cons_append, lookup_pair_cons_self, lookup_pair_cons_self,
        Option.or_some]
    · rw [List.cons_append, lookup_pair_cons_ne h, lookup_pair_cons_ne h, ih]

lemma lookup_isSome_iff_any {β : Type} (ds : List (String × β)) (c : String) :
    (ds.lookup c).isSome = ds.any (fun p => p.1 == c) := by
  induction ds with
  | nil => simp
  | cons p ds ih =>
    obtain ⟨k, w⟩ := p
    by_cases h : c = k
    · subst h
      rw [lookup_pair_cons_self]
      simp
    · rw [lookup_pair_cons_ne h]
      have : (k == c) = false := beq_eq_false_iff_ne.mpr (fun hk => h hk.symm)
      simp [this, ih]

lemma keys_setRem (ds : List (String × α)) (c : String) (v : α) :
    (setRem ds c v).map Prod.fst = ds.map Prod.fst := by
  induction ds with
  | nil => rfl
  | cons p ds ih =>
    obtain ⟨k, w⟩ := p
    by_cases h : k = c
    · subst h
      simp only [setRem, List.map_cons, eq_self_iff_true, if_true] at ih ⊢
      rw [ih]
    · simp only [setRem, List.map_cons, if_neg h] at ih ⊢
      rw [ih]

lemma lookup_dictInsert (ds : List (String × α)) (c : String) (v : α)
    (c' : String) :
    (dictInsert ds c v).lookup c' =
      if c' = c then some v else ds.lookup c' := by
  rw [dictInsert]
  by_cases hmem : ds.any (fun p => p.1 == c)
  · rw [if_pos hmem]
    by_cases hc : c' = c
    · subst hc
      rw [if_pos rfl, lookup_setRem_self]
      have : (ds.lookup c').isSome = true := by
        rw [lookup_isSome_iff_any]; exact hmem
      cases hl : ds.lookup c' with
      | none => rw [hl] at this; cases this
      | some w => simp
    · rw [if_neg hc, lookup_setRem_ne ds hc]
  · rw [if_neg hmem, lookup_append]
    by_cases hc : c' = c
    · subst hc
      have : (ds.lookup c').isSome = false := by
        simp [lookup_isSome_iff_any, hmem]
      have hnone : ds.lookup c' = none := by
        cases hl : ds.lookup c' with
        | none => rfl
        | some w => rw [hl] at this; cases this
      rw [if_pos rfl, hnone, lookup_pair_cons_self, Option.none_or]
    · rw [if_neg hc, lookup_pair_cons_ne hc, List.lookup_nil, Option.or_none]

lemma keys_dictInsert_nodup (ds : List (String × α)) (c : String) (v : α)
    (h : ((ds.map Prod.fst).Nodup)) :
    ((dictInsert ds c v).map Prod.fst).Nodup := by
  rw [dictInsert]
  by_cases hmem : ds.any (fun p => p.1 == c)
  · rw [if_pos hmem, keys_setRem]
    exact h
  · rw [if_neg hmem, List.map_append]
    simp only [List.map_cons, List.map_nil]
    rw [List.nodup_append]
    refine ⟨h, List.nodup_singleton c, ?_⟩
    intro k hk hc
    simp only [List.mem_singleton] at hc
    obtain ⟨p, hp, hpk⟩ := List.mem_map.mp hk
    exact hmem (List.any_eq_true.mpr ⟨p, hp, by rw [hpk, hc]; simp⟩)

lemma demandsCopy_keys_nodup (demands : List (DemandRec α)) :
    ((demandsCopy demands).map Prod.fst).Nodup := by
  rw [demandsCopy]
  have : ∀ (ds : List (DemandRec α)) (acc : List (String × α)),
      (acc.map Prod.fst).Nodup →
      ((ds.foldl (fun a d => dictInsert a d.city d.demand) acc).map Prod.fst).Nodup := by
    intro ds
    induction ds with
    | nil => intro acc h; exact h
    | cons d ds ih =>
      intro acc h
      rw [List.foldl_cons]
      exact ih _ (keys_dictInsert_nodup acc d.city d.demand h)
  exact this demands [] (by simp)

lemma lookup_demandsCopy (demands : List (DemandRec α)) (c : String) :
    (demandsCopy demands).lookup c =
      ((demands.filter fun d => d.city == c).getLast?).map DemandRec.demand := by
  rw [demandsCopy]
  have key : ∀ (ds : List (DemandRec α)) (acc : List (String × α)),
      (ds.foldl (fun a d => dictInsert a d.city d.demand) acc).lookup c =
        (((ds.filter fun d => d.city == c).getLast?).map DemandRec.demand).or
          (acc.lookup c) := by
    intro ds
    induction ds with
    | nil => intro acc; simp
    | cons d ds ih =>
      intro acc
      rw [List.foldl_cons, ih]
      by_cases hd : d.city = c
      · rw [List.filter_cons_of_pos (by simpa using hd)]
        rw [lookup_dictInsert, if_pos hd.symm]
        cases hll : (ds.filter fun d => d.city == c) with
        | nil => simp
        | cons b bs =>
          rw [List.getLast?_cons_cons]
          obtain ⟨x, hx⟩ := Option.isSome_iff_exists.mp
            (List.getLast?_isSome.mpr (List.cons_ne_nil b bs))
          rw [hx]
          simp
      · rw [List.filter_cons_of_neg (by simpa using hd)]
        rw [lookup_dictInsert, if_neg (fun hc => hd hc.symm)]
  rw [key demands []]
  rw [List.lookup_nil, Option.or_none]


lemma innerLoop_exit_cases {net : Net α} {C : α} {city : String} :
    ∀ {fuel : Nat} {st : VState α} {rem : α} {st' : VState α} {rem' : α},
      innerLoop net C city fuel st rem = some (st', rem') →
      rem' ≤ 0 ∨ (¬ 0 < st'.capacity ∧
        ¬ (travel_time_minutes net st'.location net.depot +
            travel_time_minutes net net.depot city ≤
          travel_time_minutes net net.depot city)) := by
  intro fuel
  induction fuel with
  | zero =>
    intro st rem st' rem' h
    rw [innerLoop] at h
    cases hstep : innerStep net C city st rem with
    | cont st₁ rem₁ => rw [hstep] at h; cases h
    | stop st₁ rem₁ =>
      rw [hstep] at h
      injection h with hp
      obtain ⟨h1, h2⟩ := Prod.mk.inj hp
      obtain ⟨ha, hb, hcase⟩ := innerStep_stop_cases hstep
      subst h1; subst h2; subst ha; subst hb
      rcases hcase with hc | ⟨hc1, hc2⟩
      · exact Or.inl hc
      · exact Or.inr ⟨hc1, hc2⟩
  | succ n ih =>
    intro st rem st' rem' h
    rw [innerLoop] at h
    cases hstep : innerStep net C city st rem with
    | cont st₁ rem₁ =>
      rw [hstep] at h
      exact ih h
    | stop st₁ rem₁ =>
      rw [hstep] at h
      injection h with hp
      obtain ⟨h1, h2⟩ := Prod.mk.inj hp
      obtain ⟨ha, hb, hcase⟩ := innerStep_stop_cases hstep
      subst h1; subst h2; subst ha; subst hb
      rcases hcase with hc | ⟨hc1, hc2⟩
      · exact Or.inl hc
      · exact Or.inr ⟨hc1, hc2⟩

lemma innerLoop_term_full {net : Net α} {C : α} {city : String} (hC : 0 < C) :
    ∀ (k : Nat) (st : VState α) (rem : α), st.capacity = C → rem ≤ k * C →
      ∃ r, innerLoop net C city (2 * k + 1) st rem = some r := by
  intro k
  induction k with
  | zero =>
    intro st rem hcap hrem
    have hnp : ¬ 0 < rem := by
      rw [Nat.cast_zero, zero_mul] at hrem
      exact not_lt.mpr hrem
    exact ⟨(st, rem), innerLoop_of_nonpos net C city _ st hnp⟩
  | succ k ih =>
    intro st rem hcap hrem
    rw [show 2 * (k + 1) + 1 = 2 * k + 2 + 1 from by omega]
    by_cases hrem0 : 0 < rem
    · have hcap0 : 0 < st.capacity := by rw [hcap]; exact hC
      have hstep := innerStep_deliver net C city st hrem0 hcap0
      have hloop1 : ∀ m (st₁ : VState α) rem₁,
          innerLoop net C city m (afterDeliver net city st rem)
              (rem - min st.capacity rem) = some (st₁, rem₁) →
          innerLoop net C city (m + 1) st rem = some (st₁, rem₁) := by
        intro m st₁ rem₁ hm
        rw [innerLoop, hstep]
        exact hm
      by_cases hcr : rem ≤ st.capacity
      · have hmin : min st.capacity rem = rem := min_eq_right hcr
        have : innerLoop net C city (2 * k + 1)
            (afterDeliver net city st rem) (rem - min st.capacity rem) =
            some (afterDeliver net city st rem, rem - min st.capacity rem) := by
          apply innerLoop_of_nonpos
          rw [hmin]
          simp
        exact ⟨_, hloop1 (2 * k + 2) _ _
          (innerLoop_mono (show 2 * k + 1 ≤ 2 * k + 2 from by omega) this)⟩
      · have hmin : min st.capacity rem = st.capacity := min_eq_left (le_of_not_le hcr)
        have hrem₁ : rem - min st.capacity rem ≤ k * C := by
          rw [hmin, hcap]
          push_cast [Nat.cast_succ] at hrem
          push_cast
          linarith
        have hcap₁ : (afterDeliver net city st rem).capacity = 0 := by
          show st.capacity - min st.capacity rem = 0
          rw [hmin]; ring
        set st₁ := afterDeliver net city st rem with hst₁
        set rem₁ := rem - min st.capacity rem with hrem₁def
        by_cases hrem₁0 : 0 < rem₁
        · have hcap₁n : ¬ 0 < st₁.capacity := by rw [hcap₁]; exact lt_irrefl 0
          by_cases hcond : travel_time_minutes net st₁.location net.depot +
              travel_time_minutes net net.depot city ≤
              travel_time_minutes net net.depot city
          · have hstep₂ := innerStep_refill net C city st₁ hrem₁0 hcap₁n hcond
            obtain ⟨⟨st₂, rem₂⟩, hr⟩ := ih (afterRefill net C st₁) rem₁ rfl hrem₁
            refine ⟨(st₂, rem₂), hloop1 (2 * k + 2) st₂ rem₂ ?_⟩
            rw [show 2 * k + 2 = 2 * k + 1 + 1 from by omega, innerLoop, hstep₂]
            exact hr
          · have hstep₂ := innerStep_abandon net C city st₁ hrem₁0 hcap₁n hcond
            refine ⟨(st₁, rem₁), hloop1 (2 * k + 2) st₁ rem₁ ?_⟩
            rw [show 2 * k + 2 = 2 * k + 1 + 1 from by omega, innerLoop, hstep₂]
        · exact ⟨(st₁, rem₁), hloop1 (2 * k + 2) st₁ rem₁
            (innerLoop_mono (by omega) (innerLoop_of_nonpos net C city 0 st₁ hrem₁0))⟩
    · exact ⟨(st, rem), innerLoop_of_nonpos net C city _ st hrem0⟩


lemma innerLoop_term {net : Net α} {C : α} {city : String} (hC : 0 < C)
    (k : Nat) (st : VState α) (rem : α) (hrem : rem ≤ k * C) :
    ∃ r, innerLoop net C city (2 * k + 3) st rem = some r := by
  by_cases h0 : 0 < rem
  · by_cases hcap : 0 < st.capacity
    · have hstep := innerStep_deliver net C city st h0 hcap
      have hloop1 : ∀ (m : Nat) (r : VState α × α),
          innerLoop net C city m (afterDeliver net city st rem)
              (rem - min st.capacity rem) = some r →
          innerLoop net C city (m + 1) st rem = some r := by
        intro m r hm
        rw [innerLoop, hstep]
        exact hm
      rw [show 2 * k + 3 = 2 * k + 2 + 1 from by omega]
      by_cases h1 : 0 < rem - min st.capacity rem
      · have hmin : min st.capacity rem = st.capacity := by
          rcases le_total st.capacity rem with hle | hle
          · exact min_eq_left hle
          · exfalso
            rw [min_eq_right hle] at h1
            simp at h1
        have hcap₁ : ¬ 0 < (afterDeliver net city st rem).capacity := by
          show ¬ 0 < st.capacity - min st.capacity rem
          rw [hmin]
          simp
        have hrem₁k : rem - min st.capacity rem ≤ k * C := by
          rw [hmin]
          linarith
        by_cases hcond : travel_time_minutes net
            (afterDeliver net city st rem).location net.depot +
            travel_time_minutes net net.depot city ≤
            travel_time_minutes net net.depot city
        · have hstep₂ := innerStep_refill net C city
            (afterDeliver net city st rem) h1 hcap₁ hcond
          obtain ⟨r, hr⟩ := innerLoop_term_full hC k
            (afterRefill net C (afterDeliver net city st rem))
            (rem - min st.capacity rem) rfl hrem₁k
          refine ⟨r, hloop1 (2 * k + 2) r ?_⟩
          rw [show 2 * k + 2 = 2 * k + 1 + 1 from by omega, innerLoop, hstep₂]
          exact hr
        · have hstep₂ := innerStep_abandon net C city
            (afterDeliver net city st rem) h1 hcap₁ hcond
          refine ⟨(afterDeliver net city st rem, rem - min st.capacity rem),
            hloop1 (2 * k + 2) _ ?_⟩
          rw [show 2 * k + 2 = 2 * k + 1 + 1 from by omega, innerLoop, hstep₂]
      · exact ⟨(afterDeliver net city st rem, rem - min st.capacity rem),
          hloop1 (2 * k + 2) _
            (innerLoop_of_nonpos net C city _ _ h1)⟩
    · by_cases hcond : travel_time_minutes net st.location net.depot +
          travel_time_minutes net net.depot city ≤
          travel_time_minutes net net.depot city
      · have hstep := innerStep_refill net C city st h0 hcap hcond
        obtain ⟨r, hr⟩ := innerLoop_term_full hC k (afterRefill net C st) rem rfl hrem
        refine ⟨r, ?_⟩
        rw [show 2 * k + 3 = 2 * k + 2 + 1 from by omega, innerLoop, hstep]
        exact innerLoop_mono (show 2 * k + 1 ≤ 2 * k + 2 from by omega) hr
      · have hstep := innerStep_abandon net C city st h0 hcap hcond
        refine ⟨(st, rem), ?_⟩
        rw [show 2 * k + 3 = 2 * k + 2 + 1 from by omega, innerLoop, hstep]
  · exact ⟨(st, rem), innerLoop_of_nonpos net C city _ st h0⟩

lemma innerLoop_term_exists [Archimedean α] {net : Net α} {C : α}
    {city : String} (hC : 0 < C) (st : VState α) (rem : α) :
    ∃ fuel r, innerLoop net C city fuel st rem = some r := by
  obtain ⟨k, hk⟩ := exists_nat_ge (rem / C)
  have hrem : rem ≤ k * C := by
    rw [div_le_iff₀ hC] at hk
    linarith [hk]
  exact ⟨2 * k + 3, innerLoop_term hC k st rem hrem⟩

lemma simVisit_term [Archimedean α] {net : Net α} {C : α} (hC : 0 < C) :
    ∀ (cs : List String) (st : VState α) (ds : List (String × α)),
      ∃ fuel r, simVisit net C fuel cs st ds = some r := by
  intro cs
  induction cs with
  | nil => exact fun st ds => ⟨0, (st, ds), by rw [simVisit]⟩
  | cons c cs ih =>
    intro st ds
    obtain ⟨f₀, ⟨st₁, rem₁⟩, h₀⟩ := innerLoop_term_exists hC st (lookupRem ds c)
    obtain ⟨f₁, r₁, h₁⟩ := ih st₁ (setRem ds c rem₁)
    refine ⟨max f₀ f₁, r₁, ?_⟩
    rw [simVisit, innerLoop_mono (le_max_left f₀ f₁) h₀]
    exact simVisit_mono (le_max_right f₀ f₁) h₁

lemma simulate_vehicle_term [Archimedean α] {net : Net α} {v : Vehicle α}
    (hC : 0 < v.capacity) (ds : List (String × α)) :
    ∃ fuel r, simulate_vehicle net v ds fuel = some r := by
  obtain ⟨fuel, ⟨st, ds'⟩, h⟩ := simVisit_term hC (ds.map Prod.fst)
    ⟨v.start, net.depot, v.capacity, []⟩ ds
  refine ⟨fuel, ?_, ?_⟩
  · exact if st.location = net.depot then (st.route, ds')
      else (st.route ++ [returnLeg net st], ds')
  · rw [simulate_vehicle, h]
    dsimp only
    by_cases hloc : st.location = net.depot
    · rw [if_pos hloc, if_pos hloc]
    · rw [if_neg hloc, if_neg hloc]


lemma lookupRem_demandsCopy_nonneg (demands : List (DemandRec α))
    (h : ∀ d ∈ demands, 0 ≤ d.demand) :
    ∀ c, 0 ≤ lookupRem (demandsCopy demands) c := by
  intro c
  rw [lookupRem, lookup_demandsCopy]
  cases hf : (demands.filter fun d => d.city == c).getLast? with
  | none => simp
  | some d =>
    simp only [Option.map_some', Option.getD_some]
    have hd : d ∈ demands.filter fun d => d.city == c := by
      obtain ⟨hne, heq⟩ := List.mem_getLast?_eq_getLast (Option.mem_def.mpr hf)
      rw [heq]
      exact List.getLast_mem hne
    exact h d (List.mem_of_mem_filter hd)

lemma demandsCopy_lookup_of_nodup (demands : List (DemandRec α))
    (hnodup : (demands.map DemandRec.city).Nodup) :
    ∀ d ∈ demands, lookupRem (demandsCopy demands) d.city = d.demand := by
  intro d hd
  rw [lookupRem, lookup_demandsCopy]
  suffices hfil : demands.filter (fun x => x.city == d.city) = [d] by
    rw [hfil]
    simp
  induction demands with
  | nil => cases hd
  | cons e es ih =>
    rw [List.map_cons, List.nodup_cons] at hnodup
    rcases List.mem_cons.mp hd with he | hd'
    · subst he
      rw [List.filter_cons_of_pos (by simp)]
      have hnone : es.filter (fun x => x.city == d.city) = [] := by
        rw [List.filter_eq_nil_iff]
        intro x hx
        have : x.city ≠ d.city := by
          intro hxc
          exact hnodup.1 (by rw [← hxc]; exact List.mem_map_of_mem DemandRec.city hx)
        simp [this]
      rw [hnone]
    · have hne : e.city ≠ d.city := by
        intro he
        exact hnodup.1 (by rw [he]; exact List.mem_map_of_mem DemandRec.city hd')
      rw [List.filter_cons_of_neg (by simp; exact hne)]
      exact ih hnodup.2 hd'



lemma haversine_comm (c1 c2 : ℝ × ℝ) :
    haversine_distance c1 c2 = haversine_distance c2 c1 := by
  have key : ∀ x y : ℝ, Real.sin ((x - y) / 2) ^ 2 = Real.sin ((y - x) / 2) ^ 2 := by
    intro x y
    have h : (x - y) / 2 = -((y - x) / 2) := by ring
    rw [h, Real.sin_neg, neg_sq]
  simp only [haversine_distance]
  rw [key (radians c2.1) (radians c1.1), key (radians c2.2) (radians c1.2),
    mul_comm (Real.cos (radians c1.1))]

lemma haversine_eq_great_circle (c1 c2 : ℝ × ℝ) :
    haversine_distance c1 c2 =
      (great_circle_km c1 c2 * 1.3, great_circle_km c1 c2 * 1.3 / 50 * 60) := by
  rfl

lemma hav01_pos : 0 < hav01 := by
  have hx : (0:ℝ) < Real.pi / 180 / 2 := by positivity
  have hxpi : Real.pi / 180 / 2 < Real.pi := by linarith [Real.pi_pos]
  have hs : 0 < Real.sin (Real.pi / 180 / 2) :=
    Real.sin_pos_of_pos_of_lt_pi hx hxpi
  rw [hav01]
  simp only [haversine_distance, radians]
  norm_num
  exact pow_pos hs 2



lemma sim_net2_eval :
    simulate_vehicle net2 ⟨1, 10, 0⟩ [("B", 1000)] 5 =
      some ([⟨"A", "B", 0, 10, 10, 3, 10⟩, ⟨"B", "A", 13, 23, 0, 0, 10⟩],
        [("B", 990)]) := by
  norm_num +decide [simulate_vehicle, simVisit, innerLoop, innerStep,
    afterDeliver, afterRefill, deliverLeg, returnLeg, travel_time_minutes,
    dist_between, matEntry, lookupRem, setRem, SPEED_KMPH, UNLOAD_MIN_PER_100KG,
    List.lookup, List.indexOf, List.findIdx, List.findIdx.go, Bool.cond_eq_ite, net2]

lemma runVehicles_net2_eval :
    runVehicles net2 5 [⟨1, 10, 0⟩, ⟨2, 10, 0⟩] [("B", 1000)] =
      some ([(1, [⟨"A", "B", 0, 10, 10, 3, 10⟩, ⟨"B", "A", 13, 23, 0, 0, 10⟩]),
             (2, [⟨"A", "B", 0, 10, 10, 3, 10⟩, ⟨"B", "A", 13, 23, 0, 0, 10⟩])],
        [("B", 980)]) := by
  norm_num +decide [runVehicles, simulate_vehicle, simVisit, innerLoop, innerStep,
    afterDeliver, afterRefill, deliverLeg, returnLeg, travel_time_minutes,
    dist_between, matEntry, lookupRem, setRem, SPEED_KMPH, UNLOAD_MIN_PER_100KG,
    List.lookup, List.indexOf, List.findIdx, List.findIdx.go, Bool.cond_eq_ite, net2]

lemma run_net2_eval :
    run_vrptw net2 [⟨1, 10, 0⟩] [⟨"B", 1000, "", ""⟩] 5 =
      some [(1, [⟨"A", "B", 0, 10, 10, 3, 10⟩, ⟨"B", "A", 13, 23, 0, 0, 10⟩])] := by
  norm_num +decide [run_vrptw, demandsCopy, dictInsert, runVehicles,
    simulate_vehicle, simVisit, innerLoop, innerStep,
    afterDeliver, afterRefill, deliverLeg, returnLeg, travel_time_minutes,
    dist_between, matEntry, lookupRem, setRem, SPEED_KMPH, UNLOAD_MIN_PER_100KG,
    List.lookup, List.indexOf, List.findIdx, List.findIdx.go, Bool.cond_eq_ite, net2]

lemma run_net5_eval :
    run_vrptw net5 [⟨1, 1000, 0⟩] [⟨"B", 50, "", ""⟩] 1 =
      some [(1, [⟨"A", "B", 0, hav01, 50, 15, hav01⟩,
                 ⟨"B", "A", hav01 + 15, hav01 + 15 + hav01, 0, 0, hav01⟩])] := by
  norm_num +decide [run_vrptw, demandsCopy, dictInsert, runVehicles,
    simulate_vehicle, simVisit, innerLoop, innerStep,
    afterDeliver, afterRefill, deliverLeg, returnLeg, travel_time_minutes,
    dist_between, matEntry, lookupRem, setRem, SPEED_KMPH, UNLOAD_MIN_PER_100KG,
    List.lookup, List.indexOf, List.findIdx, List.findIdx.go, Bool.cond_eq_ite,
    net5, fallback_matrix, List.range_succ, hav01, div_mul_cancel₀,
    haversine_comm ((0:ℝ), (1:ℝ))]


/-! ## Claim theorems -/

/-- C3: For every delivery step of `simulate_vehicle` taken with remaining
capacity > 0 and remaining demand > 0, the delivered quantity equals
`min(remaining capacity, remaining demand)`, the unload time equals
`deliver / 100 * 30` minutes, the leg's arrival equals its departure plus
`(matrix distance / 60) * 60` minutes of travel, remaining capacity and
remaining demand are both decremented by exactly the delivered quantity, and
the time cursor advances by travel time plus unload time. -/
theorem C3_delivery_step (net : Net α) (C : α) (city : String) (st : VState α)
    (rem : α) (hcap : 0 < st.capacity) (hrem : 0 < rem) :
    innerStep net C city st rem =
      .cont
        { time := st.time + dist_between net st.location city / 60 * 60 +
            min st.capacity rem / 100 * 30
          location := city
          capacity := st.capacity - min st.capacity rem
          route := st.route ++
            [{ origin := st.location
               dest := city
               depart := st.time
               arrive := st.time + dist_between net st.location city / 60 * 60
               deliver := min st.capacity rem
               unload := min st.capacity rem / 100 * 30
               distance := dist_between net st.location city }] }
        (rem - min st.capacity rem) := by
  rw [innerStep_deliver net C city st hrem hcap]
  rfl

/-- C3 witness: the delivery step evaluated on a concrete state of the
two-city network. -/
theorem C3_delivery_step_witness :
    innerStep net2 (10 : ℚ) "B" ⟨0, "A", 10, []⟩ 1000 =
      .cont ⟨13, "B", 0, [⟨"A", "B", 0, 10, 10, 3, 10⟩]⟩ 990 := by
  have h := C3_delivery_step net2 10 "B" ⟨0, "A", 10, []⟩ 1000
    (by norm_num) (by norm_num)
  rw [h]
  norm_num +decide [dist_between, matEntry, net2, List.indexOf, List.findIdx,
    List.findIdx.go, Bool.cond_eq_ite]

/-- C4: when a vehicle's remaining capacity has reached 0 while the current
city still has remaining demand, the engine refills exactly when
`travel(loc → depot) + travel(depot → city) ≤ travel(depot → city)`: it then
emits a zero-quantity zero-unload return leg, advances the time cursor by
only that travel time, resets location to the depot and capacity to the full
declared capacity, and keeps the same remaining demand (continuing the same
city); otherwise it stops processing the city, leaving state and remaining
demand unchanged. -/
theorem C4_refill_or_abandon (net : Net α) (C : α) (city : String)
    (st : VState α) (rem : α) (hrem : 0 < rem) (hcap : st.capacity = 0) :
    (travel_time_minutes net st.location net.depot +
        travel_time_minutes net net.depot city ≤
      travel_time_minutes net net.depot city →
      innerStep net C city st rem =
        .cont
          { time := st.time + travel_time_minutes net st.location net.depot
            location := net.depot
            capacity := C
            route := st.route ++
              [{ origin := st.location
                 dest := net.depot
                 depart := st.time
                 arrive := st.time + travel_time_minutes net st.location net.depot
                 deliver := 0
                 unload := 0
                 distance := dist_between net st.location net.depot }] }
          rem) ∧
    (¬ (travel_time_minutes net st.location net.depot +
        travel_time_minutes net net.depot city ≤
      travel_time_minutes net net.depot city) →
      innerStep net C city st rem = .stop st rem) := by
  have hc : ¬ 0 < st.capacity := by rw [hcap]; exact lt_irrefl 0
  constructor
  · intro hcond
    rw [innerStep_refill net C city st hrem hc hcond]
    rfl
  · intro hcond
    exact innerStep_abandon net C city st hrem hc hcond

/-- C4 witness: both branches evaluated on the two-city network — the refill
branch with the vehicle standing at the depot (round trip via depot costs no
more than a fresh start), the abandon branch with the vehicle at city `B`. -/
theorem C4_refill_or_abandon_witness :
    innerStep net2 (10 : ℚ) "B" ⟨0, "A", 0, []⟩ 50 =
      .cont ⟨0, "A", 10, [⟨"A", "A", 0, 0, 0, 0, 0⟩]⟩ 50 ∧
    innerStep net2 (10 : ℚ) "B" ⟨13, "B", 0, []⟩ 990 =
      .stop ⟨13, "B", 0, []⟩ 990 := by
  constructor
  · have h := (C4_refill_or_abandon net2 10 "B" ⟨0, "A", 0, []⟩ 50
      (by norm_num) rfl).1 (by
        norm_num +decide [travel_time_minutes, dist_between, matEntry, net2,
          SPEED_KMPH, List.indexOf, List.findIdx, List.findIdx.go,
          Bool.cond_eq_ite])
    rw [h]
    norm_num +decide [travel_time_minutes, dist_between, matEntry, net2,
      SPEED_KMPH, List.indexOf, List.findIdx, List.findIdx.go, Bool.cond_eq_ite]
  · exact (C4_refill_or_abandon net2 10 "B" ⟨13, "B", 0, []⟩ 990
      (by norm_num) rfl).2 (by
        norm_num +decide [travel_time_minutes, dist_between, matEntry, net2,
          SPEED_KMPH, List.indexOf, List.findIdx, List.findIdx.go,
          Bool.cond_eq_ite])

/-- C8: the fallback estimator is a pure deterministic function of the two
coordinate pairs, and it returns `(d * 1.3, d * 1.3 / 50 * 60)` where `d` is
the great-circle haversine distance at mean Earth radius 6371 km. -/
theorem C8_fallback_pure_formula :
    (∀ c1 c2 c1' c2' : ℝ × ℝ, c1 = c1' → c2 = c2' →
      haversine_distance c1 c2 = haversine_distance c1' c2') ∧
    ∀ c1 c2 : ℝ × ℝ,
      haversine_distance c1 c2 =
        (great_circle_km c1 c2 * 1.3, great_circle_km c1 c2 * 1.3 / 50 * 60) :=
  ⟨fun _ _ _ _ h1 h2 => by rw [h1, h2], fun c1 c2 => haversine_eq_great_circle c1 c2⟩

/-- C8 witness: purity instantiated at the scenario coordinates. -/
theorem C8_fallback_pure_formula_witness :
    haversine_distance (0, 0) (0, 1) = haversine_distance (0, 0) (0, 1) :=
  C8_fallback_pure_formula.1 (0, 0) (0, 1) (0, 0) (0, 1) rfl rfl


/-- C7: a non-empty route produced by `simulate_vehicle` ends at the depot;
and whenever the vehicle's location after processing all demand cities is not
the depot, the returned route is the processed route plus exactly one final
zero-quantity return-to-depot leg. -/
theorem C7_route_ends_at_depot (net : Net α) (v : Vehicle α)
    (ds : List (String × α)) (fuel : Nat) (route : List (Leg α))
    (ds' : List (String × α))
    (h : simulate_vehicle net v ds fuel = some (route, ds')) :
    (∀ l, route.getLast? = some l → l.dest = net.depot) ∧
    (∀ (st : VState α) (ds₂ : List (String × α)),
      simVisit net v.capacity fuel (ds.map Prod.fst)
          ⟨v.start, net.depot, v.capacity, []⟩ ds = some (st, ds₂) →
      st.location ≠ net.depot →
      route = st.route ++ [returnLeg net st] ∧ (returnLeg net st).deliver = 0) := by
  constructor
  · exact (simulate_vehicle_run h).2.1
  · intro st ds₂ hv hloc
    rw [simulate_vehicle, hv] at h
    dsimp only at h
    rw [if_neg hloc] at h
    injection h with hp
    obtain ⟨h1, h2⟩ := Prod.mk.inj hp
    exact ⟨h1.symm, rfl⟩

/-- C7 witness: the final leg of the concrete two-city run ends at the
depot `"A"`. -/
theorem C7_route_ends_at_depot_witness :
    (⟨"B", "A", 13, 23, 0, 0, 10⟩ : Leg ℚ).dest = net2.depot :=
  (C7_route_ends_at_depot net2 ⟨1, 10, 0⟩ [("B", 1000)] 5 _ _ sim_net2_eval).1
    ⟨"B", "A", 13, 23, 0, 0, 10⟩ rfl

/-- C9: for every vehicle with strictly positive declared capacity,
`simulate_vehicle` terminates — some fuel makes it return a result (each
demand city is processed once by the structural recursion of `simVisit`);
and every inner-loop exit has either driven the city's remaining quantity to
0 (full delivery) or holds the abandon-break condition (capacity exhausted
and the round-trip-via-depot cost exceeding the direct-from-depot cost). -/
theorem C9_simulate_terminates (net : Net ℚ) (v : Vehicle ℚ)
    (ds : List (String × ℚ)) (hC : 0 < v.capacity) :
    (∃ fuel r, simulate_vehicle net v ds fuel = some r) ∧
    (∀ (C : ℚ) (city : String) (fuel : Nat) (st st' : VState ℚ) (rem rem' : ℚ),
      0 ≤ C → 0 ≤ st.capacity → 0 ≤ rem →
      innerLoop net C city fuel st rem = some (st', rem') →
      rem' = 0 ∨ (0 < rem' ∧ ¬ 0 < st'.capacity ∧
        ¬ (travel_time_minutes net st'.location net.depot +
            travel_time_minutes net net.depot city ≤
          travel_time_minutes net net.depot city))) := by
  constructor
  · exact simulate_vehicle_term hC ds
  · intro C city fuel st st' rem rem' hCn hcap hrem h
    obtain ⟨Δ, -, -, -, -, hinv⟩ := innerLoop_run h
    obtain ⟨-, hrem', -, -⟩ := hinv hCn hcap hrem
    rcases innerLoop_exit_cases h with hle | hbrk
    · exact Or.inl (le_antisymm hle hrem')
    · rcases lt_or_eq_of_le hrem' with hlt | heq
      · exact Or.inr ⟨hlt, hbrk⟩
      · exact Or.inl heq.symm

/-- C9 witness: the capacity-10 vehicle's simulation on the two-city network
terminates. -/
theorem C9_simulate_terminates_witness :
    ∃ fuel r, simulate_vehicle net2 ⟨1, 10, 0⟩ [("B", 1000)] fuel = some r :=
  (C9_simulate_terminates net2 ⟨1, 10, 0⟩ [("B", 1000)] (by norm_num)).1


/-- C1: during a run, every loop-body iteration leaves a city's remaining
quantity non-increased and non-negative; and across a whole `run_vrptw` run
(with non-negative capacities and demands, distinct city names), the sum of
`deliver` amounts over all legs targeting a demand's city, across all
vehicles, never exceeds that demand's originally declared quantity. -/
theorem C1_demand_conservation :
    (∀ (net : Net α) (C : α) (city : String) (st : VState α) (rem : α),
      0 ≤ st.capacity → 0 ≤ rem →
      (innerStep net C city st rem).remaining ≤ rem ∧
      0 ≤ (innerStep net C city st rem).remaining) ∧
    (∀ (net : Net ℚ) (vehicles : List (Vehicle ℚ))
      (demands : List (DemandRec ℚ)) (fuel : Nat)
      (sol : List (Nat × List (Leg ℚ))),
      (∀ v ∈ vehicles, 0 ≤ v.capacity) → (∀ d ∈ demands, 0 ≤ d.demand) →
      (demands.map DemandRec.city).Nodup →
      run_vrptw net vehicles demands fuel = some sol →
      ∀ d ∈ demands, totalCitySum sol d.city ≤ d.demand) := by
  constructor
  · intro net C city st rem hcap hrem
    by_cases h0 : 0 < rem
    · by_cases hc : 0 < st.capacity
      · rw [innerStep_deliver net C city st h0 hc]
        constructor
        · show rem - min st.capacity rem ≤ rem
          have : 0 ≤ min st.capacity rem := le_min hcap hrem
          linarith
        · show 0 ≤ rem - min st.capacity rem
          have : min st.capacity rem ≤ rem := min_le_right _ _
          linarith
      · by_cases hcond : travel_time_minutes net st.location net.depot +
            travel_time_minutes net net.depot city ≤
            travel_time_minutes net net.depot city
        · rw [innerStep_refill net C city st h0 hc hcond]
          exact ⟨le_refl rem, hrem⟩
        · rw [innerStep_abandon net C city st h0 hc hcond]
          exact ⟨le_refl rem, hrem⟩
    · rw [innerStep_of_nonpos net C city st h0]
      exact ⟨le_refl rem, hrem⟩
  · intro net vehicles demands fuel sol hcaps hdems hnodup hrun d hd
    rw [run_vrptw] at hrun
    obtain ⟨⟨sol', dsF⟩, hrv, hsol⟩ := Option.map_eq_some'.mp hrun
    dsimp only at hsol
    subst hsol
    obtain ⟨hlook, hinv⟩ := runVehicles_run hrv
    have hnn := hinv hcaps (lookupRem_demandsCopy_nonneg demands hdems)
    have hbound := hlook d.city
    have hd0 : lookupRem (demandsCopy demands) d.city = d.demand :=
      demandsCopy_lookup_of_nodup demands hnodup d hd
    have := hnn d.city
    linarith [hbound, this, hd0.le, hd0.ge]

/-- C1 witness: one delivery step of the two-city scenario and the delivered
total of a full concrete run, both within the declared demand. -/
theorem C1_demand_conservation_witness :
    (innerStep net2 (10 : ℚ) "B" ⟨0, "A", 10, []⟩ 1000).remaining ≤ 1000 ∧
    totalCitySum
      ([(1, [⟨"A", "B", 0, 10, 10, 3, 10⟩, ⟨"B", "A", 13, 23, 0, 0, 10⟩])] :
        List (Nat × List (Leg ℚ)))
      "B" ≤ 1000 := by
  constructor
  · exact ((@C1_demand_conservation ℚ _).1 net2 10 "B" ⟨0, "A", 10, []⟩ 1000
      (by norm_num) (by norm_num)).1
  · exact (@C1_demand_conservation ℚ _).2 net2 [⟨1, 10, 0⟩] [⟨"B", 1000, "", ""⟩] 5 _
      (by intro v hv; simp at hv; rw [hv]; norm_num)
      (by intro d hd; simp at hd; rw [hd]; norm_num)
      (by simp) run_net2_eval ⟨"B", 1000, "", ""⟩ (by simp)

/-- C2: every loop-body iteration keeps a vehicle's remaining capacity
non-negative; and on every route `simulate_vehicle` produces, the total
quantity delivered on each maximal run of delivery legs between two
zero-quantity refill/return legs (or before the first one) is at most the
vehicle's declared capacity. -/
theorem C2_capacity_invariant :
    (∀ (net : Net α) (C : α) (city : String) (st : VState α) (rem : α),
      0 ≤ C → 0 ≤ st.capacity → 0 ≤ rem →
      0 ≤ (innerStep net C city st rem).state.capacity) ∧
    (∀ (net : Net ℚ) (v : Vehicle ℚ) (ds : List (String × ℚ)) (fuel : Nat)
      (route : List (Leg ℚ)) (ds' : List (String × ℚ)),
      0 ≤ v.capacity → (∀ c, 0 ≤ lookupRem ds c) →
      simulate_vehicle net v ds fuel = some (route, ds') →
      checkSegs v.capacity 0 route = true) := by
  constructor
  · intro net C city st rem hC hcap hrem
    by_cases h0 : 0 < rem
    · by_cases hc : 0 < st.capacity
      · rw [innerStep_deliver net C city st h0 hc]
        show 0 ≤ st.capacity - min st.capacity rem
        have : min st.capacity rem ≤ st.capacity := min_le_left _ _
        linarith
      · by_cases hcond : travel_time_minutes net st.location net.depot +
            travel_time_minutes net net.depot city ≤
            travel_time_minutes net net.depot city
        · rw [innerStep_refill net C city st h0 hc hcond]
          exact hC
        · rw [innerStep_abandon net C city st h0 hc hcond]
          exact hcap
    · rw [innerStep_of_nonpos net C city st h0]
      exact hcap
  · intro net v ds fuel route ds' hcap hds h
    exact ((simulate_vehicle_run h).2.2 hcap hds).2

/-- C2 witness: the capacity invariant on a concrete step and the segment
bound on the concrete two-city route. -/
theorem C2_capacity_invariant_witness :
    0 ≤ (innerStep net2 (10 : ℚ) "B" ⟨0, "A", 10, []⟩ 1000).state.capacity ∧
    checkSegs (10 : ℚ) 0
      ([⟨"A", "B", 0, 10, 10, 3, 10⟩, ⟨"B", "A", 13, 23, 0, 0, 10⟩] :
        List (Leg ℚ)) = true := by
  constructor
  · exact (@C2_capacity_invariant ℚ _).1 net2 10 "B" ⟨0, "A", 10, []⟩ 1000
      (by norm_num) (by norm_num) (by norm_num)
  · exact (@C2_capacity_invariant ℚ _).2 net2 ⟨1, 10, 0⟩ [("B", 1000)] 5 _ _
      (by norm_num)
      (by
        intro c
        by_cases hc : c = "B"
        · subst hc
          norm_num [lookupRem, lookup_pair_cons_self]
        · rw [lookupRem, lookup_pair_cons_ne hc, List.lookup_nil]
          norm_num)
      sim_net2_eval

/-- C10: when several demand records share a city name, `run_vrptw` keeps one
remaining-quantity entry per name (the keys of `demands_copy` are
duplicate-free), initialized from the last such record, and no run ever
delivers more to that city than that single kept value — the earlier
duplicates' quantities are dropped and never delivered. -/
theorem C10_duplicate_demands_last_wins (demands : List (DemandRec ℚ)) :
    ((demandsCopy demands).map Prod.fst).Nodup ∧
    (∀ c, (demandsCopy demands).lookup c =
      ((demands.filter fun d => d.city == c).getLast?).map DemandRec.demand) ∧
    (∀ (net : Net ℚ) (vehicles : List (Vehicle ℚ)) (fuel : Nat)
      (sol : List (Nat × List (Leg ℚ))),
      (∀ v ∈ vehicles, 0 ≤ v.capacity) → (∀ d ∈ demands, 0 ≤ d.demand) →
      run_vrptw net vehicles demands fuel = some sol →
      ∀ c, totalCitySum sol c ≤ lookupRem (demandsCopy demands) c) := by
  refine ⟨demandsCopy_keys_nodup demands, fun c => lookup_demandsCopy demands c, ?_⟩
  intro net vehicles fuel sol hcaps hdems hrun c
  rw [run_vrptw] at hrun
  obtain ⟨⟨sol', dsF⟩, hrv, hsol⟩ := Option.map_eq_some'.mp hrun
  dsimp only at hsol
  subst hsol
  obtain ⟨hlook, hinv⟩ := runVehicles_run hrv
  have hnn := hinv hcaps (lookupRem_demandsCopy_nonneg demands hdems) c
  have hbound := hlook c
  linarith

/-- C10 witness: two records for `"B"` — the dict keeps one entry with the
last record's quantity 700, and a concrete run delivers at most 700. -/
theorem C10_duplicate_demands_last_wins_witness :
    ((demandsCopy [⟨"B", 300, "", ""⟩, ⟨"B", 700, "", ""⟩] :
        List (String × ℚ)).map Prod.fst).Nodup ∧
    (demandsCopy [⟨"B", 300, "", ""⟩, ⟨"B", 700, "", ""⟩] :
        List (String × ℚ)).lookup "B" = some 700 := by
  constructor
  · exact (C10_duplicate_demands_last_wins
      [⟨"B", 300, "", ""⟩, ⟨"B", 700, "", ""⟩]).1
  · rw [(C10_duplicate_demands_last_wins
      [⟨"B", 300, "", ""⟩, ⟨"B", 700, "", ""⟩]).2.1 "B"]
    rfl


/-- C5 counterexample: in the fallback-only scenario the engine produces the
two expected legs, but the total elapsed time (last arrival minus first
departure) does NOT equal the 50 km/h-derived travel time for both legs plus
the 15-minute unload — the dispatch engine computes travel times at 60 km/h,
not at the fallback estimator's 50 km/h. -/
theorem C5_fallback_scenario_counterexample :
    run_vrptw net5 [⟨1, 1000, 0⟩] [⟨"B", 50, "", ""⟩] 1 =
      some [(1, [⟨"A", "B", 0, hav01, 50, 15, hav01⟩,
                 ⟨"B", "A", hav01 + 15, hav01 + 15 + hav01, 0, 0, hav01⟩])] ∧
    ¬ ((hav01 + 15 + hav01) - 0 = 2 * (hav01 / 50 * 60) + 15) := by
  refine ⟨run_net5_eval, fun h => ?_⟩
  have hpos := hav01_pos
  have : hav01 / 50 * 60 = hav01 * (6 / 5) := by ring
  rw [this] at h
  nlinarith

/-- C5 (amended): in the fallback-only scenario — supply at `(0,0)`, one
demand of 50 at `(0,1°)`, one vehicle of capacity 1000 starting at instant
0 — the plan has exactly two legs (depot→demand delivering 50, then
demand→depot), each leg's distance equals the haversine great-circle
distance times 1.3, and the total elapsed time equals the travel time
derived at the engine's 60 km/h for both legs plus 15 minutes of unload. -/
theorem C5_fallback_scenario (fuel : Nat) (hfuel : 1 ≤ fuel) :
    run_vrptw net5 [⟨1, 1000, 0⟩] [⟨"B", 50, "", ""⟩] fuel =
      some [(1, [⟨"A", "B", 0, hav01, 50, 15, hav01⟩,
                 ⟨"B", "A", hav01 + 15, hav01 + 15 + hav01, 0, 0, hav01⟩])] ∧
    hav01 = great_circle_km (0, 0) (0, 1) * 1.3 ∧
    (hav01 + 15 + hav01) - 0 = 2 * (hav01 / 60 * 60) + 15 := by
  refine ⟨run_vrptw_mono hfuel run_net5_eval, ?_, by
    rw [div_mul_cancel₀ hav01 (by norm_num : (60:ℝ) ≠ 0)]; ring⟩
  rw [hav01, haversine_eq_great_circle]

/-- C5 witness: the amended scenario at fuel 1. -/
theorem C5_fallback_scenario_witness :
    run_vrptw net5 [⟨1, 1000, 0⟩] [⟨"B", 50, "", ""⟩] 1 =
      some [(1, [⟨"A", "B", 0, hav01, 50, 15, hav01⟩,
                 ⟨"B", "A", hav01 + 15, hav01 + 15 + hav01, 0, 0, hav01⟩])] :=
  (C5_fallback_scenario 1 (le_refl 1)).1

/-- C6 counterexample: with one vehicle of capacity 10 and a single demand of
1000 at a city 10 km from the depot, the round-trip-via-depot cost does NOT
equal the direct-from-depot cost (20 ≠ 10 minutes), so after its single
capacity-exhausting delivery the engine abandons the city instead of
refilling: the route has exactly one delivery leg and one return leg, 990
remains, and a second vehicle continues from 990 (to 980) rather than the
first vehicle refilling until the demand is finished. -/
theorem C6_refill_scenario_counterexample :
    travel_time_minutes net2 "B" "A" + travel_time_minutes net2 "A" "B" ≠
      travel_time_minutes net2 "A" "B" ∧
    simulate_vehicle net2 ⟨1, 10, 0⟩ [("B", 1000)] 5 =
      some ([⟨"A", "B", 0, 10, 10, 3, 10⟩, ⟨"B", "A", 13, 23, 0, 0, 10⟩],
        [("B", 990)]) ∧
    runVehicles net2 5 [⟨1, 10, 0⟩, ⟨2, 10, 0⟩] [("B", 1000)] =
      some ([(1, [⟨"A", "B", 0, 10, 10, 3, 10⟩, ⟨"B", "A", 13, 23, 0, 0, 10⟩]),
             (2, [⟨"A", "B", 0, 10, 10, 3, 10⟩, ⟨"B", "A", 13, 23, 0, 0, 10⟩])],
        [("B", 980)]) := by
  refine ⟨?_, sim_net2_eval, runVehicles_net2_eval⟩
  norm_num +decide [travel_time_minutes, dist_between, matEntry, net2,
    SPEED_KMPH, List.indexOf, List.findIdx, List.findIdx.go, Bool.cond_eq_ite]

/-- C6 (amended): after a vehicle exhausts its capacity at a city, the
round-trip-via-depot cost exceeds the direct-from-depot cost by the
city→depot travel time, so whenever that travel time is positive the engine
abandons the city (no refill) rather than refilling; and the demands state a
vehicle's simulation returns is passed unchanged as the input of the next
vehicle's simulation, carrying the remaining quantity over. -/
theorem C6_refill_scenario (net : Net ℚ) :
    (∀ (C : ℚ) (city : String) (st : VState ℚ) (rem : ℚ),
      0 < rem → ¬ 0 < st.capacity →
      0 < travel_time_minutes net st.location net.depot →
      innerStep net C city st rem = .stop st rem) ∧
    (∀ (fuel : Nat) (v : Vehicle ℚ) (vs : List (Vehicle ℚ))
      (ds : List (String × ℚ)) (route : List (Leg ℚ))
      (ds₁ : List (String × ℚ)),
      ds.any (fun p => decide (0 < p.2)) →
      simulate_vehicle net v ds fuel = some (route, ds₁) →
      runVehicles net fuel (v :: vs) ds =
        (runVehicles net fuel vs ds₁).map fun q =>
          ((if route.isEmpty then q.1 else (v.id, route) :: q.1), q.2)) := by
  constructor
  · intro C city st rem hrem hcap htrav
    apply innerStep_abandon net C city st hrem hcap
    intro hcond
    have := add_le_iff_nonpos_left.mp hcond
    linarith
  · intro fuel v vs ds route ds₁ hany hsim
    rw [runVehicles, if_pos hany, hsim]
    dsimp only
    cases hrec : runVehicles net fuel vs ds₁ with
    | none => rfl
    | some q => rfl

/-- C6 witness: the abandon step of the amended claim, evaluated at the
concrete state where vehicle 1 stands at city `"B"` with capacity 0. -/
theorem C6_refill_scenario_witness :
    innerStep net2 (10 : ℚ) "B" ⟨13, "B", 0, []⟩ 990 =
      .stop ⟨13, "B", 0, []⟩ 990 :=
  (C6_refill_scenario net2).1 10 "B" ⟨13, "B", 0, []⟩ 990 (by norm_num)
    (by norm_num)
    (by norm_num +decide [travel_time_minutes, dist_between, matEntry, net2,
      SPEED_KMPH, List.indexOf, List.findIdx, List.findIdx.go, Bool.cond_eq_ite])

end VRPTW
